import Mathlib

set_option maxRecDepth 20000

/-!
Verification of `trans.c` (matrix transpose under a simulated cache).

The C routines operate on `int A[N][M]` / `int B[M][N]`.  A matrix is
modelled as a total function from (row, column) to the stored value.  Every
loop bound and guard in `trans.c` depends only on the loop indices, never on
the matrix data, so each transpose routine is faithfully captured by a
*write schedule*: the list, in program order, of (destination, source) index
pairs of its stores `B[dest] = A[src]`.  Running a schedule is a left fold
of single-cell updates.
-/

namespace TransC

/-- A matrix: total function from (row, column) to the stored `int` value. -/
abbrev Mat : Type := Nat → Nat → Int

/-- `upd B r c v` is `B` after the single store `B[r][c] = v`. -/
def upd (B : Mat) (r c : Nat) (v : Int) : Mat :=
  fun r' c' => if r' = r ∧ c' = c then v else B r' c'

/-- A write schedule: (destination, source) index pairs, in program order. -/
abbrev Schedule : Type := List ((Nat × Nat) × (Nat × Nat))

/-- Run a schedule: perform the stores `B[e.1] = A[e.2]` in order. -/
def applySchedule (A B : Mat) (ws : Schedule) : Mat :=
  ws.foldl (fun b e => upd b e.1.1 e.1.2 (A e.2.1 e.2.2)) B

theorem applySchedule_cons (A B : Mat) (e : (Nat × Nat) × (Nat × Nat)) (ws : Schedule) :
    applySchedule A B (e :: ws) = applySchedule A (upd B e.1.1 e.1.2 (A e.2.1 e.2.2)) ws :=
  rfl

/-- A cell no write of the schedule targets keeps its initial value. -/
theorem applySchedule_not_written (A : Mat) (ws : Schedule) (r c : Nat)
    (h : ∀ e ∈ ws, e.1 ≠ (r, c)) :
    ∀ B : Mat, applySchedule A B ws r c = B r c := by
  induction ws with
  | nil => intro B; rfl
  | cons e t ih =>
    obtain ⟨⟨er, ec⟩, sr, sc⟩ := e
    intro B
    rw [applySchedule_cons]
    rw [ih (fun e' he' => h e' (List.mem_cons_of_mem _ he'))]
    have hne : ¬(r = er ∧ c = ec) := by
      rintro ⟨rfl, rfl⟩
      exact h ((r, c), sr, sc) (List.mem_cons_self _ _) rfl
    simp [upd, hne]

/-- If every write of a schedule stores `A[c][r]` into `B[r][c]` (destination
is the swap of the source), then any cell the schedule targets ends up
holding the transposed entry. -/
theorem applySchedule_transposes (A : Mat) (ws : Schedule) (r c : Nat)
    (hAC : ∀ e ∈ ws, e.1 = (e.2.2, e.2.1))
    (hmem : (r, c) ∈ ws.map Prod.fst) :
    ∀ B : Mat, applySchedule A B ws r c = A c r := by
  induction ws with
  | nil => simp at hmem
  | cons e t ih =>
    intro B
    rw [applySchedule_cons]
    by_cases hm : (r, c) ∈ t.map Prod.fst
    · exact ih (fun e' he' => hAC e' (List.mem_cons_of_mem _ he')) hm _
    · obtain ⟨⟨er, ec⟩, sr, sc⟩ := e
      rw [List.map_cons] at hmem
      have heq : (r, c) = (er, ec) := by
        rcases List.mem_cons.mp hmem with h' | h'
        · exact h'
        · exact absurd h' hm
      simp only [Prod.mk.injEq] at heq
      obtain ⟨rfl, rfl⟩ := heq
      have hsw : ((r, c) : Nat × Nat) = (sc, sr) := hAC _ (List.mem_cons_self _ _)
      simp only [Prod.mk.injEq] at hsw
      obtain ⟨rfl, rfl⟩ := hsw
      rw [applySchedule_not_written A t r c
        (fun e' he' h' => hm (List.mem_map.mpr ⟨e', he', h'⟩))]
      simp [upd]

/-- Write schedule of the baseline `trans`:
`for i in [0,n) for j in [0,m): B[j][i] = A[i][j]`. -/
def writesTrans (m n : Nat) : Schedule :=
  (List.range n).flatMap fun i => (List.range m).map fun j => ((j, i), (i, j))

/-- Baseline transposer `trans` (trans.c, lines 169-180): plain double loop
storing `B[j][i] = A[i][j]` for `i < N`, `j < M`; a non-positive bound gives
zero iterations, as in C. -/
def trans (M N : Int) (A B : Mat) : Mat :=
  applySchedule A B (writesTrans M.toNat N.toNat)

theorem writesTrans_swap (m n : Nat) : ∀ e ∈ writesTrans m n, e.1 = (e.2.2, e.2.1) := by
  intro e he
  simp only [writesTrans, List.mem_flatMap, List.mem_map, List.mem_range] at he
  obtain ⟨i, _, j, _, rfl⟩ := he
  rfl

theorem mem_writesTrans (m n i j : Nat) (hi : i < n) (hj : j < m) :
    ((j, i), (i, j)) ∈ writesTrans m n := by
  simp only [writesTrans, List.mem_flatMap, List.mem_map, List.mem_range]
  exact ⟨i, hi, j, hj, rfl⟩

theorem writesTrans_dest_lt (m n : Nat) : ∀ e ∈ writesTrans m n, e.1.1 < m ∧ e.1.2 < n := by
  intro e he
  simp only [writesTrans, List.mem_flatMap, List.mem_map, List.mem_range] at he
  obtain ⟨i, hi, j, hj, rfl⟩ := he
  exact ⟨hj, hi⟩

/-- Verifier `is_transpose` (trans.c, lines 189-201): scans `i < N`, `j < M`
and returns 0 at the first `A[i][j] != B[j][i]`, else 1.  Modelled as a
Bool-valued pure function; `List.all` short-circuits like the C loop. -/
def is_transpose (M N : Int) (A B : Mat) : Bool :=
  (List.range N.toNat).all fun i => (List.range M.toNat).all fun j => A i j == B j i

/-- The all-zero matrix, used as the initial content of the output buffer. -/
def zeroMat : Mat := fun _ _ => 0

/-- The concrete 2x2 example matrix `A = [[1,2],[3,4]]` from the spec. -/
def mat2x2 : Mat := fun i j =>
  if i = 0 ∧ j = 0 then 1 else if i = 0 ∧ j = 1 then 2
  else if i = 1 ∧ j = 0 then 3 else if i = 1 ∧ j = 1 then 4 else 0

/-- A concrete matrix with pairwise distinct entries, used in witnesses. -/
def matIdx : Mat := fun i j => (i : Int) * 64 + (j : Int)

/-- Claim C4: for positive `M`, `N` the baseline transposer `trans` stores
`B[j][i] = A[i][j]` for every `i < N`, `j < M`; in particular `M = N = 1`
sets `B[0][0] = A[0][0]`, and on `A = [[1,2],[3,4]]` with `M = N = 2` it
yields `B = [[1,3],[2,4]]`, which `is_transpose` accepts. -/
theorem trans_correct :
    (∀ (M N : Int), 0 < M → 0 < N → ∀ (A B : Mat) (i j : Nat),
        i < N.toNat → j < M.toNat → trans M N A B j i = A i j)
    ∧ (∀ A B : Mat, trans 1 1 A B 0 0 = A 0 0)
    ∧ (trans 2 2 mat2x2 zeroMat 0 0 = 1 ∧ trans 2 2 mat2x2 zeroMat 0 1 = 3
       ∧ trans 2 2 mat2x2 zeroMat 1 0 = 2 ∧ trans 2 2 mat2x2 zeroMat 1 1 = 4
       ∧ is_transpose 2 2 mat2x2 (trans 2 2 mat2x2 zeroMat) = true) := by
  refine ⟨?_, ?_, ?_⟩
  · intro M N _ _ A B i j hi hj
    exact applySchedule_transposes A _ j i (writesTrans_swap _ _)
      (List.mem_map.mpr ⟨((j, i), (i, j)), mem_writesTrans _ _ i j hi hj, rfl⟩) B
  · intro A B
    exact applySchedule_transposes A _ 0 0 (writesTrans_swap _ _)
      (List.mem_map.mpr ⟨((0, 0), (0, 0)), mem_writesTrans _ _ 0 0 (by decide) (by decide), rfl⟩) B
  · decide

/-- Witness for C4: the general clause applied at `M = N = 2`, cell (1, 0). -/
theorem trans_correct_witness : trans 2 2 mat2x2 zeroMat 1 0 = mat2x2 0 1 :=
  trans_correct.1 2 2 (by decide) (by decide) mat2x2 zeroMat 0 1 (by decide) (by decide)

/-- Write schedule of the 32x32 blocked loop nest (trans.c, lines 96-109,
identical to the 32x32 branch of `transpose_submit`, lines 39-52): 8x8 tiles;
each tile row `ii` copies `B[jj][ii] = A[ii][jj]` skipping the cell with
`ii == jj` in a diagonal tile (`i == j`), then patches `B[ii][ii] = A[ii][ii]`
right after that row when the tile is diagonal. -/
def writes32x32 : Schedule :=
  (List.range' 0 4 8).flatMap fun i =>
    (List.range' 0 4 8).flatMap fun j =>
      (List.range' i 8 1).flatMap fun ii =>
        ((List.range' j 8 1).filterMap fun jj =>
          if ii = jj ∧ i = j then none else some ((jj, ii), (ii, jj)))
        ++ (if i = j then [((ii, ii), (ii, ii))] else [])

/-- Write schedule of the 32x64 loop nest (trans.c, lines 123-131, identical
to the `N == 64 && M == 32` branch of `transpose_submit`, lines 56-64):
8-row by 4-column tiles, every element copied, no diagonal special-casing. -/
def writes32x64 : Schedule :=
  (List.range' 0 8 8).flatMap fun i =>
    (List.range' 0 8 4).flatMap fun j =>
      (List.range' i 8 1).flatMap fun ii =>
        (List.range' j 4 1).map fun jj => ((jj, ii), (ii, jj))

/-- Write schedule of the 64x64 blocked loop nest (trans.c, lines 145-158,
identical to the 64x64 branch of `transpose_submit`, lines 68-81): same
structure as the 32x32 nest but with 4x4 tiles. -/
def writes64x64 : Schedule :=
  (List.range' 0 16 4).flatMap fun i =>
    (List.range' 0 16 4).flatMap fun j =>
      (List.range' i 4 1).flatMap fun ii =>
        ((List.range' j 4 1).filterMap fun jj =>
          if ii = jj ∧ i = j then none else some ((jj, ii), (ii, jj)))
        ++ (if i = j then [((ii, ii), (ii, ii))] else [])

theorem writes32x32_swap : ∀ e ∈ writes32x32, e.1 = (e.2.2, e.2.1) := by
  intro e he
  simp only [writes32x32, List.mem_flatMap, List.mem_append, List.mem_filterMap,
    List.mem_range'] at he
  obtain ⟨i, ⟨bi, hbi, rfl⟩, j, ⟨bj, hbj, rfl⟩, ii, ⟨di, hdi, rfl⟩, hcase⟩ := he
  rcases hcase with ⟨jj, ⟨dj, hdj, rfl⟩, hsome⟩ | hdiag
  · by_cases hc : 0 + 8 * bi + 1 * di = 0 + 8 * bj + 1 * dj ∧ 0 + 8 * bi = 0 + 8 * bj
    · rw [if_pos hc] at hsome; exact absurd hsome (by simp)
    · rw [if_neg hc] at hsome
      obtain rfl := Option.some.inj hsome
      rfl
  · by_cases hc : 0 + 8 * bi = 0 + 8 * bj
    · rw [if_pos hc] at hdiag
      rw [List.mem_singleton] at hdiag
      subst hdiag; rfl
    · rw [if_neg hc] at hdiag; exact absurd hdiag (List.not_mem_nil _)

theorem writes32x32_dest_lt : ∀ e ∈ writes32x32, e.1.1 < 32 ∧ e.1.2 < 32 := by
  intro e he
  simp only [writes32x32, List.mem_flatMap, List.mem_append, List.mem_filterMap,
    List.mem_range'] at he
  obtain ⟨i, ⟨bi, hbi, rfl⟩, j, ⟨bj, hbj, rfl⟩, ii, ⟨di, hdi, rfl⟩, hcase⟩ := he
  rcases hcase with ⟨jj, ⟨dj, hdj, rfl⟩, hsome⟩ | hdiag
  · by_cases hc : 0 + 8 * bi + 1 * di = 0 + 8 * bj + 1 * dj ∧ 0 + 8 * bi = 0 + 8 * bj
    · rw [if_pos hc] at hsome; exact absurd hsome (by simp)
    · rw [if_neg hc] at hsome
      obtain rfl := Option.some.inj hsome
      constructor <;> · simp only; omega
  · by_cases hc : 0 + 8 * bi = 0 + 8 * bj
    · rw [if_pos hc] at hdiag
      rw [List.mem_singleton] at hdiag
      subst hdiag
      constructor <;> · simp only; omega
    · rw [if_neg hc] at hdiag; exact absurd hdiag (List.not_mem_nil _)

/-- The 32x32 schedule targets every cell of the 32x32 grid. -/
theorem writes32x32_covers (r c : Nat) (hr : r < 32) (hc : c < 32) :
    (r, c) ∈ writes32x32.map Prod.fst := by
  refine List.mem_map.mpr ?_
  by_cases hrc : r = c
  · subst hrc
    refine ⟨((r, r), (r, r)), ?_, rfl⟩
    simp only [writes32x32, List.mem_flatMap, List.mem_append, List.mem_filterMap,
      List.mem_range']
    refine ⟨0 + 8 * (r / 8), ⟨r / 8, by omega, rfl⟩,
            0 + 8 * (r / 8), ⟨r / 8, by omega, rfl⟩,
            0 + 8 * (r / 8) + 1 * (r % 8), ⟨r % 8, by omega, rfl⟩,
            Or.inr ?_⟩
    rw [if_pos rfl]
    have hii : 0 + 8 * (r / 8) + 1 * (r % 8) = r := by omega
    rw [hii]
    exact List.mem_singleton.mpr rfl
  · refine ⟨((r, c), (c, r)), ?_, rfl⟩
    simp only [writes32x32, List.mem_flatMap, List.mem_append, List.mem_filterMap,
      List.mem_range']
    refine ⟨0 + 8 * (c / 8), ⟨c / 8, by omega, rfl⟩,
            0 + 8 * (r / 8), ⟨r / 8, by omega, rfl⟩,
            0 + 8 * (c / 8) + 1 * (c % 8), ⟨c % 8, by omega, rfl⟩,
            Or.inl ⟨0 + 8 * (r / 8) + 1 * (r % 8), ⟨r % 8, by omega, rfl⟩, ?_⟩⟩
    have hii : 0 + 8 * (c / 8) + 1 * (c % 8) = c := by omega
    have hjj : 0 + 8 * (r / 8) + 1 * (r % 8) = r := by omega
    rw [hii, hjj, if_neg]
    rintro ⟨h1, -⟩
    exact hrc h1.symm

theorem writes32x64_swap : ∀ e ∈ writes32x64, e.1 = (e.2.2, e.2.1) := by
  intro e he
  simp only [writes32x64, List.mem_flatMap, List.mem_map, List.mem_range'] at he
  obtain ⟨i, ⟨bi, hbi, rfl⟩, j, ⟨bj, hbj, rfl⟩, ii, ⟨di, hdi, rfl⟩, jj, ⟨dj, hdj, rfl⟩, rfl⟩ := he
  rfl

theorem writes32x64_dest_lt : ∀ e ∈ writes32x64, e.1.1 < 32 ∧ e.1.2 < 64 := by
  intro e he
  simp only [writes32x64, List.mem_flatMap, List.mem_map, List.mem_range'] at he
  obtain ⟨i, ⟨bi, hbi, rfl⟩, j, ⟨bj, hbj, rfl⟩, ii, ⟨di, hdi, rfl⟩, jj, ⟨dj, hdj, rfl⟩, rfl⟩ := he
  constructor <;> · simp only; omega

/-- The 32x64 schedule targets every cell of the 32-row by 64-column grid. -/
theorem writes32x64_covers (r c : Nat) (hr : r < 32) (hc : c < 64) :
    (r, c) ∈ writes32x64.map Prod.fst := by
  refine List.mem_map.mpr ⟨((r, c), (c, r)), ?_, rfl⟩
  simp only [writes32x64, List.mem_flatMap, List.mem_map, List.mem_range']
  refine ⟨0 + 8 * (c / 8), ⟨c / 8, by omega, rfl⟩,
          0 + 4 * (r / 4), ⟨r / 4, by omega, rfl⟩,
          0 + 8 * (c / 8) + 1 * (c % 8), ⟨c % 8, by omega, rfl⟩,
          0 + 4 * (r / 4) + 1 * (r % 4), ⟨r % 4, by omega, rfl⟩, ?_⟩
  have hii : 0 + 8 * (c / 8) + 1 * (c % 8) = c := by omega
  have hjj : 0 + 4 * (r / 4) + 1 * (r % 4) = r := by omega
  rw [hii, hjj]

theorem writes64x64_swap : ∀ e ∈ writes64x64, e.1 = (e.2.2, e.2.1) := by
  intro e he
  simp only [writes64x64, List.mem_flatMap, List.mem_append, List.mem_filterMap,
    List.mem_range'] at he
  obtain ⟨i, ⟨bi, hbi, rfl⟩, j, ⟨bj, hbj, rfl⟩, ii, ⟨di, hdi, rfl⟩, hcase⟩ := he
  rcases hcase with ⟨jj, ⟨dj, hdj, rfl⟩, hsome⟩ | hdiag
  · by_cases hc : 0 + 4 * bi + 1 * di = 0 + 4 * bj + 1 * dj ∧ 0 + 4 * bi = 0 + 4 * bj
    · rw [if_pos hc] at hsome; exact absurd hsome (by simp)
    · rw [if_neg hc] at hsome
      obtain rfl := Option.some.inj hsome
      rfl
  · by_cases hc : 0 + 4 * bi = 0 + 4 * bj
    · rw [if_pos hc] at hdiag
      rw [List.mem_singleton] at hdiag
      subst hdiag; rfl
    · rw [if_neg hc] at hdiag; exact absurd hdiag (List.not_mem_nil _)

theorem writes64x64_dest_lt : ∀ e ∈ writes64x64, e.1.1 < 64 ∧ e.1.2 < 64 := by
  intro e he
  simp only [writes64x64, List.mem_flatMap, List.mem_append, List.mem_filterMap,
    List.mem_range'] at he
  obtain ⟨i, ⟨bi, hbi, rfl⟩, j, ⟨bj, hbj, rfl⟩, ii, ⟨di, hdi, rfl⟩, hcase⟩ := he
  rcases hcase with ⟨jj, ⟨dj, hdj, rfl⟩, hsome⟩ | hdiag
  · by_cases hc : 0 + 4 * bi + 1 * di = 0 + 4 * bj + 1 * dj ∧ 0 + 4 * bi = 0 + 4 * bj
    · rw [if_pos hc] at hsome; exact absurd hsome (by simp)
    · rw [if_neg hc] at hsome
      obtain rfl := Option.some.inj hsome
      constructor <;> · simp only; omega
  · by_cases hc : 0 + 4 * bi = 0 + 4 * bj
    · rw [if_pos hc] at hdiag
      rw [List.mem_singleton] at hdiag
      subst hdiag
      constructor <;> · simp only; omega
    · rw [if_neg hc] at hdiag; exact absurd hdiag (List.not_mem_nil _)

/-- The 64x64 schedule targets every cell of the 64x64 grid. -/
theorem writes64x64_covers (r c : Nat) (hr : r < 64) (hc : c < 64) :
    (r, c) ∈ writes64x64.map Prod.fst := by
  refine List.mem_map.mpr ?_
  by_cases hrc : r = c
  · subst hrc
    refine ⟨((r, r), (r, r)), ?_, rfl⟩
    simp only [writes64x64, List.mem_flatMap, List.mem_append, List.mem_filterMap,
      List.mem_range']
    refine ⟨0 + 4 * (r / 4), ⟨r / 4, by omega, rfl⟩,
            0 + 4 * (r / 4), ⟨r / 4, by omega, rfl⟩,
            0 + 4 * (r / 4) + 1 * (r % 4), ⟨r % 4, by omega, rfl⟩,
            Or.inr ?_⟩
    rw [if_pos rfl]
    have hii : 0 + 4 * (r / 4) + 1 * (r % 4) = r := by omega
    rw [hii]
    exact List.mem_singleton.mpr rfl
  · refine ⟨((r, c), (c, r)), ?_, rfl⟩
    simp only [writes64x64, List.mem_flatMap, List.mem_append, List.mem_filterMap,
      List.mem_range']
    refine ⟨0 + 4 * (c / 4), ⟨c / 4, by omega, rfl⟩,
            0 + 4 * (r / 4), ⟨r / 4, by omega, rfl⟩,
            0 + 4 * (c / 4) + 1 * (c % 4), ⟨c % 4, by omega, rfl⟩,
            Or.inl ⟨0 + 4 * (r / 4) + 1 * (r % 4), ⟨r % 4, by omega, rfl⟩, ?_⟩⟩
    have hii : 0 + 4 * (c / 4) + 1 * (c % 4) = c := by omega
    have hjj : 0 + 4 * (r / 4) + 1 * (r % 4) = r := by omega
    rw [hii, hjj, if_neg]
    rintro ⟨h1, -⟩
    exact hrc h1.symm

/-- `trans_32x32` (trans.c, lines 92-111): the whole body is guarded by
`M == 32 && N == 32`; with any other arguments the function performs no
store at all. -/
def trans_32x32 (M N : Int) (A B : Mat) : Mat :=
  if M = 32 ∧ N = 32 then applySchedule A B writes32x32 else B

/-- `trans_32x64` (trans.c, lines 119-133): the loop nest is guarded by
`N == 64 && M == 32`; with any other arguments the function performs no
store at all. -/
def trans_32x64 (M N : Int) (A B : Mat) : Mat :=
  if N = 64 ∧ M = 32 then applySchedule A B writes32x64 else B

/-- `trans_64x64` (trans.c, lines 141-160): the whole body is guarded by
`M == 64 && N == 64`; with any other arguments the function performs no
store at all. -/
def trans_64x64 (M N : Int) (A B : Mat) : Mat :=
  if M = 64 ∧ N = 64 then applySchedule A B writes64x64 else B

/-- Claim C5: with `M = N = 32`, `trans_32x32` (off-diagonal copies per 8x8
tile plus the deferred diagonal pass) produces a complete correct transpose:
`B[j][i] = A[i][j]` for all `i, j < 32`. -/
theorem trans_32x32_correct (A B : Mat) (i j : Nat) (hi : i < 32) (hj : j < 32) :
    trans_32x32 32 32 A B j i = A i j := by
  rw [trans_32x32, if_pos ⟨rfl, rfl⟩]
  exact applySchedule_transposes A _ j i writes32x32_swap (writes32x32_covers j i hj hi) B

/-- Witness for C5 at the concrete cell (3, 5) of a concrete matrix. -/
theorem trans_32x32_correct_witness : trans_32x32 32 32 matIdx zeroMat 5 3 = matIdx 3 5 :=
  trans_32x32_correct matIdx zeroMat 3 5 (by decide) (by decide)

/-- Claim C6: with `M = 32`, `N = 64`, `trans_32x64` (8x4 tiles, no diagonal
special-casing) produces a correct transpose: `B[j][i] = A[i][j]` for all
`i < 64`, `j < 32`. -/
theorem trans_32x64_correct (A B : Mat) (i j : Nat) (hi : i < 64) (hj : j < 32) :
    trans_32x64 32 64 A B j i = A i j := by
  rw [trans_32x64, if_pos ⟨rfl, rfl⟩]
  exact applySchedule_transposes A _ j i writes32x64_swap (writes32x64_covers j i hj hi) B

/-- Witness for C6 at the concrete cell (40, 7) of a concrete matrix. -/
theorem trans_32x64_correct_witness : trans_32x64 32 64 matIdx zeroMat 7 40 = matIdx 40 7 :=
  trans_32x64_correct matIdx zeroMat 40 7 (by decide) (by decide)

/-- Claim C7: on every 64x64 input, the blocked `trans_64x64` computes
exactly the same output matrix as the naive baseline `trans`. -/
theorem trans_64x64_eq_trans (A B : Mat) :
    trans_64x64 64 64 A B = trans 64 64 A B := by
  funext r c
  by_cases h : r < 64 ∧ c < 64
  · have h1 : trans_64x64 64 64 A B r c = A c r := by
      rw [trans_64x64, if_pos ⟨rfl, rfl⟩]
      exact applySchedule_transposes A _ r c writes64x64_swap (writes64x64_covers r c h.1 h.2) B
    have h2 : trans 64 64 A B r c = A c r :=
      applySchedule_transposes A _ r c (writesTrans_swap _ _)
        (List.mem_map.mpr ⟨((r, c), (c, r)), mem_writesTrans _ _ c r h.2 h.1, rfl⟩) B
    rw [h1, h2]
  · have hn64 : ∀ e ∈ writes64x64, e.1 ≠ (r, c) := by
      intro e he heq
      have hlt := writes64x64_dest_lt e he
      rw [heq] at hlt
      exact h hlt
    have hnT : ∀ e ∈ writesTrans 64 64, e.1 ≠ (r, c) := by
      intro e he heq
      have hlt := writesTrans_dest_lt 64 64 e he
      rw [heq] at hlt
      exact h hlt
    have h1 : trans_64x64 64 64 A B r c = B r c := by
      rw [trans_64x64, if_pos ⟨rfl, rfl⟩]
      exact applySchedule_not_written A _ r c hn64 B
    have h2 : trans 64 64 A B r c = B r c :=
      applySchedule_not_written A _ r c hnT B
    rw [h1, h2]

/-- Witness for C7: the equivalence applied to a concrete input matrix. -/
theorem trans_64x64_eq_trans_witness :
    trans_64x64 64 64 matIdx zeroMat = trans 64 64 matIdx zeroMat :=
  trans_64x64_eq_trans matIdx zeroMat

/-- The dimension-compatibility test of `transpose_submit` (trans.c, line
31): `(N == 32 || N == 64) && (M == 32)`; when it holds the function prints
the "square dimensions" diagnostic and returns at once. -/
def dimsRejected (M N : Int) : Bool :=
  (N == 32 || N == 64) && M == 32

/-- Diagnostic printed by `transpose_submit` for non-positive dimensions
(trans.c, line 26). -/
def invalidDimsMsg : String :=
  "Invalid matrix dimensions: M and N must be positive integers."

/-- Diagnostic printed by `transpose_submit` when `dimsRejected` holds
(trans.c, line 32). -/
def squareDimsMsg : String :=
  "Input matrices must have square dimensions for transposition."

/-- Dispatcher `transpose_submit` (trans.c, lines 22-83).  Returns the list
of diagnostics written to stderr together with the final content of `B`.
After the two early-return checks, the three shape branches are three
sequential `if` statements (not `else if`), modelled in the same order;
their loop nests are the schedules above. -/
def transpose_submit (M N : Int) (A B : Mat) : List String × Mat :=
  if M ≤ 0 ∨ N ≤ 0 then
    ([invalidDimsMsg], B)
  else if dimsRejected M N then
    ([squareDimsMsg], B)
  else
    let B1 := if M = 32 ∧ N = 32 then applySchedule A B writes32x32 else B
    let B2 := if N = 64 ∧ M = 32 then applySchedule A B1 writes32x64 else B1
    let B3 := if M = 64 ∧ N = 64 then applySchedule A B2 writes64x64 else B2
    ([], B3)

/-- Claim C1 is a code bug: the dispatch entry point does NOT transpose for
the supported shape (M, N) = (32, 32).  Evaluated at the concrete input
`A = matIdx`, `B = zeroMat`: the inverted compatibility check fires, the
call returns the "square dimensions" diagnostic with `B` unchanged, and
`is_transpose` rejects the result. -/
theorem transpose_submit_32x32_not_transposed :
    transpose_submit 32 32 matIdx zeroMat = ([squareDimsMsg], zeroMat)
    ∧ is_transpose 32 32 matIdx (transpose_submit 32 32 matIdx zeroMat).2 = false := by
  constructor
  · rfl
  · decide

/-- Counterexample to claim C2: at the supported shape (M, N) = (64, 64)
(positive dimensions) the compatibility check does NOT reject, so the check
does not fire on all three supported shapes. -/
theorem dimsRejected_not_iff_supported :
    ¬ (dimsRejected 64 64 = true ↔
        (((64 : Int), (64 : Int)) = (32, 32) ∨ ((64 : Int), (64 : Int)) = (32, 64)
          ∨ ((64 : Int), (64 : Int)) = (64, 64))) := by
  decide

/-- Claim C2 as amended: for positive `M`, `N` the compatibility check of
`transpose_submit` rejects (M, N) iff (M, N) is (32, 32) or (32, 64) — i.e.
exactly two of the three supported shapes, accepting (64, 64). -/
theorem dimsRejected_iff (M N : Int) (hM : 0 < M) (hN : 0 < N) :
    dimsRejected M N = true ↔ (M = 32 ∧ N = 32) ∨ (M = 32 ∧ N = 64) := by
  simp only [dimsRejected, Bool.and_eq_true, Bool.or_eq_true, beq_iff_eq]
  constructor
  · rintro ⟨h32 | h64, hM32⟩
    · exact Or.inl ⟨hM32, h32⟩
    · exact Or.inr ⟨hM32, h64⟩
  · rintro (⟨rfl, rfl⟩ | ⟨rfl, rfl⟩)
    · exact ⟨Or.inl rfl, rfl⟩
    · exact ⟨Or.inr rfl, rfl⟩

/-- Witness for the amended C2 at (M, N) = (32, 32). -/
theorem dimsRejected_iff_witness : dimsRejected 32 32 = true :=
  (dimsRejected_iff 32 32 (by decide) (by decide)).mpr (Or.inl ⟨rfl, rfl⟩)

/-- Counterexample to claim C3: at the positive, unsupported shape
(M, N) = (2, 2) the dispatcher leaves `B` unchanged but emits NO diagnostic
(the returned message list is empty), refuting "emits a diagnostic". -/
theorem transpose_submit_unsupported_silent :
    ¬ ((transpose_submit 2 2 matIdx zeroMat).1 ≠ []
        ∧ (transpose_submit 2 2 matIdx zeroMat).2 = zeroMat) := by
  rintro ⟨hne, -⟩
  exact hne rfl

/-- Claim C3 as amended: for every positive (M, N) that is none of the three
supported shapes, `transpose_submit` returns normally with `B` entirely
unchanged, but emits no diagnostic at all. -/
theorem transpose_submit_unsupported_noop (M N : Int) (A B : Mat)
    (hM : 0 < M) (hN : 0 < N)
    (hns : ¬ ((M = 32 ∧ N = 32) ∨ (M = 32 ∧ N = 64) ∨ (M = 64 ∧ N = 64))) :
    transpose_submit M N A B = ([], B) := by
  rw [transpose_submit]
  rw [if_neg (by omega)]
  rw [if_neg ?hrej]
  case hrej =>
    intro hrej
    rcases (dimsRejected_iff M N hM hN).mp hrej with ⟨h1, h2⟩ | ⟨h1, h2⟩
    · exact hns (Or.inl ⟨h1, h2⟩)
    · exact hns (Or.inr (Or.inl ⟨h1, h2⟩))
  have h1 : ¬ (M = 32 ∧ N = 32) := fun h => hns (Or.inl h)
  have h2 : ¬ (N = 64 ∧ M = 32) := fun h => hns (Or.inr (Or.inl ⟨h.2, h.1⟩))
  have h3 : ¬ (M = 64 ∧ N = 64) := fun h => hns (Or.inr (Or.inr h))
  simp only [if_neg h1, if_neg h2, if_neg h3]

/-- Witness for the amended C3 at (M, N) = (2, 2). -/
theorem transpose_submit_unsupported_noop_witness :
    transpose_submit 2 2 mat2x2 zeroMat = ([], zeroMat) :=
  transpose_submit_unsupported_noop 2 2 mat2x2 zeroMat (by decide) (by decide) (by decide)

/-- Claim C9: for non-positive dimensions `transpose_submit` returns at once
with the invalid-dimensions diagnostic and `B` entirely unchanged. -/
theorem transpose_submit_nonpositive (M N : Int) (A B : Mat)
    (h : M ≤ 0 ∨ N ≤ 0) :
    transpose_submit M N A B = ([invalidDimsMsg], B) := by
  rw [transpose_submit, if_pos h]

/-- Witness for C9 at (M, N) = (0, 5). -/
theorem transpose_submit_nonpositive_witness :
    transpose_submit 0 5 matIdx zeroMat = ([invalidDimsMsg], zeroMat) :=
  transpose_submit_nonpositive 0 5 matIdx zeroMat (by decide)

/-- Claim C8: `is_transpose M N A B` returns `true` iff `A[i][j] = B[j][i]`
for every `i < N`, `j < M` (and `false` otherwise, being Bool-valued); in
the embedding it is a pure function of its arguments. -/
theorem is_transpose_iff (M N : Int) (A B : Mat) :
    is_transpose M N A B = true ↔
      ∀ i j : Nat, i < N.toNat → j < M.toNat → A i j = B j i := by
  simp only [is_transpose, List.all_eq_true, List.mem_range, beq_iff_eq]
  constructor
  · intro h i j hi hj
    exact h i hi j hj
  · intro h i hi j hj
    exact h i j hi hj

/-- Witness for C8: the criterion applied at `M = N = 2` to the example
matrix and its transpose image. -/
theorem is_transpose_iff_witness :
    is_transpose 2 2 mat2x2 (trans 2 2 mat2x2 zeroMat) = true :=
  (is_transpose_iff 2 2 mat2x2 (trans 2 2 mat2x2 zeroMat)).mpr
    (fun i j hi hj =>
      (trans_correct.1 2 2 (by decide) (by decide) mat2x2 zeroMat i j hi hj).symm)

/-- Claim C10: each shape-specific entry point is guarded by its own shape
test; with any other (M, N) it is a silent no-op leaving `B` unchanged. -/
theorem shape_guards_noop (M N : Int) (A B : Mat) :
    (¬ (M = 32 ∧ N = 32) → trans_32x32 M N A B = B)
    ∧ (¬ (M = 32 ∧ N = 64) → trans_32x64 M N A B = B)
    ∧ (¬ (M = 64 ∧ N = 64) → trans_64x64 M N A B = B) := by
  refine ⟨?_, ?_, ?_⟩
  · intro h
    rw [trans_32x32, if_neg h]
  · intro h
    rw [trans_32x64, if_neg (fun h' => h ⟨h'.2, h'.1⟩)]
  · intro h
    rw [trans_64x64, if_neg h]

/-- Witness for C10: all three guards at the unsupported shape (5, 7). -/
theorem shape_guards_noop_witness :
    trans_32x32 5 7 matIdx zeroMat = zeroMat
    ∧ trans_32x64 5 7 matIdx zeroMat = zeroMat
    ∧ trans_64x64 5 7 matIdx zeroMat = zeroMat :=
  ⟨(shape_guards_noop 5 7 matIdx zeroMat).1 (by decide),
   (shape_guards_noop 5 7 matIdx zeroMat).2.1 (by decide),
   (shape_guards_noop 5 7 matIdx zeroMat).2.2 (by decide)⟩

end TransC
